import Mathlib

/-!
Shallow embedding of the asset-mirroring pipeline of `oaistatic_mirror.py`
(repository k-cim/script).  The embedding follows the source code:

* `replaceAll` models the Python method `str.replace` (global, left-to-right,
  non-overlapping substitution), used at `html = html.replace(url, new_link)`.
* `netlocOf` / `pathOf` / `basenameOf` model `urllib.parse.urlparse` and
  `os.path.basename` on the URL shapes the extraction regex
  (attribute src or href, value an absolute http(s) URL or a relative
  `_fichiers/` path between quotes) can produce.
* `targetFor` models the classification `if/elif/else` of `process_html_file`
  (substring test on `parsed.netloc`); `targetForStream` models the
  `url.startswith(...)` variant of `process_html_stream`.
* `processUrl` models one iteration of the `for _, url in matches:` loop of
  `process_html_file` (existence check, local copy, remote download, statuses);
  `processHtmlFile` models the whole loop, threading the store, the document
  text and the log lines.  `processUrlStream` / `processHtmlStream` model the
  stdin variant.
* `downloadFile` models `download_file` (requests.get with try/except).
* `blocksOnInput` models the two `input()` call sites of `process_html_file`.

The on-disk asset tree is modelled as an association list from relative path
to byte content; filesystem and network are oracles passed in `Env`.
-/

namespace Oaistatic

/-- Strings are modelled as lists of characters (Python `str`). -/
abbrev Str := List Char

/-- File contents are modelled as lists of bytes. -/
abbrev Bytes := List Nat

/-- The Python substring test `pat in s`. -/
def listContains (pat : Str) : Str → Bool
  | [] => pat.isPrefixOf ([] : Str)
  | c :: rest => pat.isPrefixOf (c :: rest) || listContains pat rest

/-- Fuel-indexed body of `replaceAll`; the fuel (an upper bound on the length
of `s`, consumed at each step) only makes the recursion structural. -/
def replaceAllF : Nat → Str → Str → Str → Str
  | _, [], _, _ => []
  | 0, s, _, _ => s
  | fuel + 1, c :: rest, pat, rep =>
    if pat.isPrefixOf (c :: rest) then
      rep ++ replaceAllF fuel ((c :: rest).drop pat.length) pat rep
    else
      c :: replaceAllF fuel rest pat rep

/-- The Python method `s.replace(pat, rep)`: global, left-to-right, non-overlapping
substitution of `pat` by `rep` in `s`.  (The Python behaviour for an empty
pattern is irrelevant here: the extraction regex never yields an empty URL.) -/
def replaceAll (s pat rep : Str) : Str :=
  if pat = [] then s else replaceAllF s.length s pat rep

/-- The part of the URL after `http://` or `https://`, when the URL is
absolute (the first regex alternative). -/
def schemeRest (url : Str) : Option Str :=
  if ("https://".data).isPrefixOf url then some (url.drop 8)
  else if ("http://".data).isPrefixOf url then some (url.drop 7)
  else none

/-- `urlparse(url).netloc`: for an absolute URL the host part, for a relative
reference the empty string. -/
def netlocOf (url : Str) : Str :=
  match schemeRest url with
  | some rest => rest.takeWhile (fun c => !(c == '/' || c == '?' || c == '#'))
  | none => []

/-- `urlparse(url).path`: for an absolute URL the part after the netloc, for a
relative reference the URL itself; query/fragment stripped. -/
def pathOf (url : Str) : Str :=
  let rest :=
    match schemeRest url with
    | some r => r.dropWhile (fun c => !(c == '/' || c == '?' || c == '#'))
    | none => url
  rest.takeWhile (fun c => !(c == '?' || c == '#'))

/-- `os.path.basename`: the component after the last `/`. -/
def basenameOf (p : Str) : Str :=
  p.foldl (fun acc c => if c = '/' then [] else acc ++ [c]) []

/-- The per-origin target computed by the classification branch of the loop:
the log tag (`origine`), the rewritten link (`new_link`) and the store path
(`new_path`, relative to the base directory). -/
structure Target where
  origine : Str
  link : Str
  path : Str
deriving DecidableEq

/-- Classification of `process_html_file` (lines 160–175): substring test on
`parsed.netloc`; everything that is neither CDN nor persistent — sibling
`_fichiers/` relative paths and unknown absolute URLs alike — goes to the
external store with the tag `local`. -/
def targetFor (url : Str) : Target :=
  let filename := basenameOf (pathOf url)
  let netloc := netlocOf url
  if listContains ("cdn.oaistatic.com".data) netloc then
    ⟨"cdn".data, "../cdn/assets/".data ++ filename, "cdn/assets/".data ++ filename⟩
  else if listContains ("persistent.oaistatic.com".data) netloc then
    ⟨"persistent".data, "../persistent/".data ++ filename, "persistent/".data ++ filename⟩
  else
    ⟨"local".data, "../external_assets/".data ++ filename, "external_assets/".data ++ filename⟩

/-- Classification of `process_html_stream` (lines 84–95): prefix test on the
raw URL instead of the netloc; same three buckets. -/
def targetForStream (url : Str) : Target :=
  let filename := basenameOf (pathOf url)
  if ("https://cdn.oaistatic.com".data).isPrefixOf url then
    ⟨"cdn".data, "../cdn/assets/".data ++ filename, "cdn/assets/".data ++ filename⟩
  else if ("https://persistent.oaistatic.com".data).isPrefixOf url then
    ⟨"persistent".data, "../persistent/".data ++ filename, "persistent/".data ++ filename⟩
  else
    ⟨"local".data, "../external_assets/".data ++ filename, "external_assets/".data ++ filename⟩

/-- The on-disk store: an association list from relative path to content.
`new_path.exists()` is `lookupStore store p ≠ none`. -/
abbrev Store := List (Str × Bytes)

/-- Content stored at path `p`, if any. -/
def lookupStore (store : Store) (p : Str) : Option Bytes :=
  match store with
  | [] => none
  | (q, b) :: rest => if q = p then some b else lookupStore rest p

/-- Observable I/O effects of one loop iteration. -/
inductive Effect where
  | localRead (filename : Str)
  | netFetch (url : Str)
  | write (path : Str)
  | prompt
deriving DecidableEq

/-- The environment of a run: the local export directory in use (`rep_used`),
as a map from base filename to content when present, and the network, as a
map from URL to fetched content (`none` = failed download). -/
structure Env where
  repUsed : Option (Str → Option Bytes)
  fetch : Str → Option Bytes

/-- Result of one loop iteration. -/
structure StepResult where
  store : Store
  link : Str
  status : Str
  effects : List Effect
deriving DecidableEq

/-- One iteration of the rewrite loop of `process_html_file`
(lines 160–193): classification, existence check, local copy / remote
download, status string. -/
def processUrl (env : Env) (store : Store) (url : Str) : StepResult :=
  let t := targetFor url
  let filename := basenameOf (pathOf url)
  match lookupStore store t.path with
  | some _ => ⟨store, t.link, "identique – déjà présent".data, []⟩
  | none =>
    match env.repUsed with
    | some dir =>
      match dir filename with
      | some b =>
        ⟨(t.path, b) :: store, t.link, "copié – local".data,
          [.localRead filename, .write t.path]⟩
      | none =>
        match env.fetch url with
        | some b =>
          ⟨(t.path, b) :: store, t.link, "réécrit – distant".data,
            [.netFetch url, .write t.path]⟩
        | none => ⟨store, t.link, "non trouvé".data, [.netFetch url]⟩
    | none =>
      match env.fetch url with
      | some b =>
        ⟨(t.path, b) :: store, t.link, "réécrit – distant".data,
          [.netFetch url, .write t.path]⟩
      | none => ⟨store, t.link, "non téléchargé".data, [.netFetch url]⟩

/-- Result of a whole run of the rewrite loop. -/
structure RunResult where
  store : Store
  html : Str
  logs : List (Str × Str)
  effects : List Effect
deriving DecidableEq

/-- The whole rewrite loop of `process_html_file`: for each extracted URL,
resolve it, then `html = html.replace(url, new_link)` and append a log line
(modelled as the pair of URL and status). -/
def processHtmlFile (env : Env) (store : Store) (html : Str) :
    List Str → RunResult
  | [] => ⟨store, html, [], []⟩
  | url :: rest =>
    let r := processUrl env store url
    let rr := processHtmlFile env r.store (replaceAll html url r.link) rest
    ⟨rr.store, rr.html, (url, r.status) :: rr.logs, r.effects ++ rr.effects⟩

/-- One iteration of the loop of `process_html_stream` (lines 80–104): no
local directory is ever consulted; absent paths are fetched remotely, a
failed fetch is logged `non téléchargé`. -/
def processUrlStream (fetch : Str → Option Bytes) (store : Store)
    (url : Str) : StepResult :=
  let t := targetForStream url
  match lookupStore store t.path with
  | some _ => ⟨store, t.link, "identique – déjà présent".data, []⟩
  | none =>
    match fetch url with
    | some b =>
      ⟨(t.path, b) :: store, t.link, "réécrit – distant".data,
        [.netFetch url, .write t.path]⟩
    | none => ⟨store, t.link, "non téléchargé".data, [.netFetch url]⟩

/-- The whole loop of `process_html_stream`. -/
def processHtmlStream (fetch : Str → Option Bytes) (store : Store)
    (html : Str) : List Str → RunResult
  | [] => ⟨store, html, [], []⟩
  | url :: rest =>
    let r := processUrlStream fetch store url
    let rr := processHtmlStream fetch r.store (replaceAll html url r.link) rest
    ⟨rr.store, rr.html, (url, r.status) :: rr.logs, r.effects ++ rr.effects⟩

/-- What the resolution of `url` yields when its path is absent from the
store: the local directory first, then the network (`process_html_file`,
lines 177–188).  `none` means the reference cannot be resolved. -/
def resolves (env : Env) (url : Str) : Option Bytes :=
  match env.repUsed with
  | some dir =>
    match dir (basenameOf (pathOf url)) with
    | some b => some b
    | none => env.fetch url
  | none => env.fetch url

/-- The document rewriting alone: every URL replaced by its link, in
extraction order, independently of any resolution outcome. -/
def rewriteList (html : Str) : List Str → Str
  | [] => html
  | url :: rest => rewriteList (replaceAll html url (targetFor url).link) rest

/-- Outcome of `requests.get` as seen by `download_file`. -/
inductive HttpResult where
  | success (status : Nat) (content : Bytes)
  | netError
deriving DecidableEq

/-- Model of `download_file` (lines 53–63): content on HTTP 200, `none` on
any other status, `none` on any raised exception (the bare `except`). -/
def downloadFile (r : HttpResult) : Option Bytes :=
  match r with
  | .success s c => if s = 200 then some c else none
  | .netError => none

/-- The command-line flags consulted before the rewrite loop. -/
structure Args where
  force : Bool
  noPrompt : Bool
  forceDir : Option Str
deriving DecidableEq

/-- Filesystem facts consulted before the rewrite loop: whether the output
file `mod_path` exists, whether the sibling `_fichiers` directory exists,
whether the `--force-dir` directory exists. -/
structure FsState where
  modPathExists : Bool
  siblingDirExists : Bool
  forceDirExists : Bool
deriving DecidableEq

/-- Whether `process_html_file` calls `input()` at least once before its
rewrite loop (lines 132–153): the overwrite prompt is guarded by `--force`
and `--no-prompt`; the missing-directory prompt is guarded by `--force`
only. -/
def blocksOnInput (args : Args) (fs : FsState) : Bool :=
  (fs.modPathExists && !args.force && !args.noPrompt) ||
    (!(fs.siblingDirExists || (args.forceDir.isSome && fs.forceDirExists))
      && !args.force)

/-- The failure status logged by the loop of `process_html_file` when a
reference resolves nowhere: `non trouvé` when a local directory is in use,
`non téléchargé` otherwise. -/
def failStatus (env : Env) : Str :=
  match env.repUsed with
  | some _ => "non trouvé".data
  | none => "non téléchargé".data

/- ### Helper lemmas -/

theorem lookupStore_cons (q : Str) (c : Bytes) (store : Store) (p : Str) :
    lookupStore ((q, c) :: store) p = if q = p then some c else lookupStore store p := rfl

theorem lookupStore_insert_other (store : Store) (q p : Str) (c b : Bytes)
    (hq : lookupStore store q = none) (h : lookupStore store p = some b) :
    lookupStore ((q, c) :: store) p = some b := by
  rw [lookupStore_cons]
  split
  case isTrue heq => rw [heq] at hq; rw [hq] at h; exact Option.noConfusion h
  case isFalse => exact h

/-- A stored path is returned untouched: the `new_path.exists()` branch. -/
theorem processUrl_of_stored (env : Env) (store : Store) (url : Str) (b : Bytes)
    (h : lookupStore store (targetFor url).path = some b) :
    processUrl env store url =
      ⟨store, (targetFor url).link, "identique – déjà présent".data, []⟩ := by
  simp only [processUrl, h]

/-- When the path is absent and nothing resolves, the loop body leaves the
store alone, logs the failure status, and the only effect is the attempted
fetch. -/
theorem processUrl_unresolved (env : Env) (store : Store) (url : Str)
    (h : lookupStore store (targetFor url).path = none)
    (hr : resolves env url = none) :
    processUrl env store url =
      ⟨store, (targetFor url).link, failStatus env, [Effect.netFetch url]⟩ := by
  rcases henv : env.repUsed with _ | dir
  · have hf : env.fetch url = none := by simpa [resolves, henv] using hr
    simp [processUrl, failStatus, h, henv, hf]
  · rcases hd : dir (basenameOf (pathOf url)) with _ | b
    · have hf : env.fetch url = none := by simpa [resolves, henv, hd] using hr
      simp [processUrl, failStatus, h, henv, hd, hf]
    · exact absurd hr (by simp [resolves, henv, hd])

/-- The rewritten link never depends on the resolution outcome. -/
theorem processUrl_link (env : Env) (store : Store) (url : Str) :
    (processUrl env store url).link = (targetFor url).link := by
  simp only [processUrl]
  split
  · rfl
  · split
    · split
      · rfl
      · split <;> rfl
    · split <;> rfl

/-- Stored content survives one loop iteration: the loop only ever writes to
a path that did not exist. -/
theorem processUrl_grow (env : Env) (store : Store) (url p : Str) (b : Bytes)
    (h : lookupStore store p = some b) :
    lookupStore (processUrl env store url).store p = some b := by
  simp only [processUrl]
  split
  · exact h
  case h_2 hq =>
    split
    · split
      · exact lookupStore_insert_other _ _ _ _ _ hq h
      · split
        · exact lookupStore_insert_other _ _ _ _ _ hq h
        · exact h
    · split
      · exact lookupStore_insert_other _ _ _ _ _ hq h
      · exact h

/-- After one iteration on `url`, either its path is stored or the reference
resolves nowhere in this environment. -/
theorem processUrl_after (env : Env) (store : Store) (url : Str) :
    (∃ b, lookupStore (processUrl env store url).store (targetFor url).path = some b) ∨
      resolves env url = none := by
  rcases hs : lookupStore store (targetFor url).path with _ | b
  · rcases henv : env.repUsed with _ | dir
    · rcases hf : env.fetch url with _ | b
      · right; simp [resolves, henv, hf]
      · left; exact ⟨b, by simp [processUrl, hs, henv, hf, lookupStore]⟩
    · rcases hd : dir (basenameOf (pathOf url)) with _ | b
      · rcases hf : env.fetch url with _ | b'
        · right; simp [resolves, henv, hd, hf]
        · left; exact ⟨b', by simp [processUrl, hs, henv, hd, hf, lookupStore]⟩
      · left; exact ⟨b, by simp [processUrl, hs, henv, hd, lookupStore]⟩
  · left; exact ⟨b, by rw [processUrl_of_stored env store url b hs]; exact hs⟩

/-- An iteration whose path is stored, or whose reference resolves nowhere,
does not change the store. -/
theorem processUrl_store_noop (env : Env) (store : Store) (url : Str)
    (h : (∃ b, lookupStore store (targetFor url).path = some b) ∨
      resolves env url = none) :
    (processUrl env store url).store = store := by
  rcases h with ⟨b, hb⟩ | hr
  · rw [processUrl_of_stored env store url b hb]
  · rcases hs : lookupStore store (targetFor url).path with _ | b
    · rw [processUrl_unresolved env store url hs hr]
    · rw [processUrl_of_stored env store url b hs]

/-- Stored content survives a whole run. -/
theorem processHtmlFile_grow (env : Env) (store : Store) (html : Str)
    (urls : List Str) (p : Str) (b : Bytes) (h : lookupStore store p = some b) :
    lookupStore (processHtmlFile env store html urls).store p = some b := by
  induction urls generalizing store html with
  | nil => exact h
  | cons u rest ih => exact ih _ _ (processUrl_grow env store u p b h)

/-- The output text of a run is the pure rewrite of the input text: it
depends only on the document and the URL list, never on the store or on
any resolution outcome. -/
theorem processHtmlFile_html_eq (env : Env) (store : Store) (html : Str)
    (urls : List Str) :
    (processHtmlFile env store html urls).html = rewriteList html urls := by
  induction urls generalizing store html with
  | nil => rfl
  | cons u rest ih =>
    simp only [processHtmlFile, rewriteList]
    rw [processUrl_link env store u]
    exact ih _ _

/-- A run all of whose iterations leave the store alone leaves the store
alone. -/
theorem processHtmlFile_store_fix (env : Env) (store : Store) (html : Str)
    (urls : List Str)
    (h : ∀ u ∈ urls, (processUrl env store u).store = store) :
    (processHtmlFile env store html urls).store = store := by
  induction urls generalizing html with
  | nil => rfl
  | cons u rest ih =>
    have h1 : (processUrl env store u).store = store := h u (List.mem_cons_self u rest)
    simp only [processHtmlFile]
    rw [h1]
    exact ih _ (fun v hv => h v (List.mem_cons_of_mem u hv))

/-- After a run, every processed URL either has its path stored or resolves
nowhere. -/
theorem processHtmlFile_after (env : Env) (store : Store) (html : Str)
    (urls : List Str) :
    ∀ u ∈ urls,
      (∃ b, lookupStore (processHtmlFile env store html urls).store
          (targetFor u).path = some b) ∨ resolves env u = none := by
  induction urls generalizing store html with
  | nil => intro u hu; cases hu
  | cons v rest ih =>
    intro u hu
    rcases List.mem_cons.mp hu with rfl | hu'
    · rcases processUrl_after env store u with ⟨b, hb⟩ | hr
      · exact Or.inl ⟨b, processHtmlFile_grow env _ _ rest _ b hb⟩
      · exact Or.inr hr
    · exact ih _ _ u hu'

/-- One log line per extracted reference, in processing order. -/
theorem processHtmlFile_logs (env : Env) (store : Store) (html : Str)
    (urls : List Str) :
    (processHtmlFile env store html urls).logs.map Prod.fst = urls := by
  induction urls generalizing store html with
  | nil => rfl
  | cons u rest ih =>
    simp only [processHtmlFile, List.map_cons]
    rw [ih]

/-- One iteration emits a write to `p` either not at all, or exactly once —
and in the latter case `p` was absent before and is stored afterwards. -/
theorem processUrl_count_write (env : Env) (store : Store) (url p : Str) :
    (processUrl env store url).effects.count (Effect.write p) = 0 ∨
      ((processUrl env store url).effects.count (Effect.write p) = 1 ∧
        lookupStore store p = none ∧
        (∃ b, lookupStore (processUrl env store url).store p = some b)) := by
  by_cases hp : (targetFor url).path = p
  · subst hp
    rcases hs : lookupStore store (targetFor url).path with _ | b
    · rcases henv : env.repUsed with _ | dir
      · rcases hf : env.fetch url with _ | b
        · left; simp [processUrl, hs, henv, hf]
        · right
          refine ⟨by simp [processUrl, hs, henv, hf, List.count_cons], rfl, b, ?_⟩
          simp [processUrl, hs, henv, hf, lookupStore]
      · rcases hd : dir (basenameOf (pathOf url)) with _ | b
        · rcases hf : env.fetch url with _ | b'
          · left; simp [processUrl, hs, henv, hd, hf]
          · right
            refine ⟨by simp [processUrl, hs, henv, hd, hf, List.count_cons], rfl, b', ?_⟩
            simp [processUrl, hs, henv, hd, hf, lookupStore]
        · right
          refine ⟨by simp [processUrl, hs, henv, hd, List.count_cons], rfl, b, ?_⟩
          simp [processUrl, hs, henv, hd, lookupStore]
    · left; rw [processUrl_of_stored env store url b hs]; rfl
  · left
    simp only [processUrl]
    split
    · rfl
    · have hw : (Effect.write (targetFor url).path == Effect.write p) = false := by
        simp [hp]
      split
      · split
        · simp [List.count_cons, hw]
        · split <;> simp [List.count_cons, hw]
      · split <;> simp [List.count_cons, hw]

/-- No write to an already-stored path ever happens during a run. -/
theorem processHtmlFile_count_write_stored (env : Env) (store : Store)
    (html : Str) (urls : List Str) (p : Str) (b : Bytes)
    (h : lookupStore store p = some b) :
    (processHtmlFile env store html urls).effects.count (Effect.write p) = 0 := by
  induction urls generalizing store html with
  | nil => rfl
  | cons u rest ih =>
    simp only [processHtmlFile, List.count_append]
    have h1 : (processUrl env store u).effects.count (Effect.write p) = 0 := by
      rcases processUrl_count_write env store u p with h0 | ⟨_, hnone, _⟩
      · exact h0
      · rw [h] at hnone; exact Option.noConfusion hnone
    rw [h1, ih _ _ (processUrl_grow env store u p b h)]

/-- Every path is written at most once per run. -/
theorem processHtmlFile_count_write_le_one (env : Env) (store : Store)
    (html : Str) (urls : List Str) (p : Str) :
    (processHtmlFile env store html urls).effects.count (Effect.write p) ≤ 1 := by
  induction urls generalizing store html with
  | nil => simp [processHtmlFile]
  | cons u rest ih =>
    simp only [processHtmlFile, List.count_append]
    rcases processUrl_count_write env store u p with h0 | ⟨h1, _, b, hb⟩
    · rw [h0]; simpa using ih _ _
    · rw [h1, processHtmlFile_count_write_stored env _ _ rest p b hb]

/-- The stream loop body only ever fetches or writes. -/
theorem processUrlStream_effects (fetch : Str → Option Bytes) (store : Store)
    (url : Str) :
    ∀ e ∈ (processUrlStream fetch store url).effects,
      e = Effect.netFetch url ∨ e = Effect.write (targetForStream url).path := by
  intro e he
  simp only [processUrlStream] at he
  rcases hs : lookupStore store (targetForStream url).path with _ | b
  · rcases hf : fetch url with _ | b
    · rw [hs, hf] at he
      simp at he
      simp [he]
    · rw [hs, hf] at he
      simp at he
      rcases he with rfl | rfl
      · exact Or.inl rfl
      · exact Or.inr rfl
  · rw [hs] at he
    simp at he

/-- The stream loop performs no local read and no prompt at all. -/
theorem processHtmlStream_no_local (fetch : Str → Option Bytes) (store : Store)
    (html : Str) (urls : List Str) :
    ∀ e ∈ (processHtmlStream fetch store html urls).effects,
      (∀ f, e ≠ Effect.localRead f) ∧ e ≠ Effect.prompt := by
  induction urls generalizing store html with
  | nil => intro e he; cases he
  | cons u rest ih =>
    intro e he
    simp only [processHtmlStream, List.mem_append] at he
    rcases he with he | he
    · rcases processUrlStream_effects fetch store u e he with rfl | rfl <;>
        exact ⟨fun f => by simp, by simp⟩
    · exact ih _ _ e he

/-- One stream log line per extracted reference, in processing order. -/
theorem processHtmlStream_logs (fetch : Str → Option Bytes) (store : Store)
    (html : Str) (urls : List Str) :
    (processHtmlStream fetch store html urls).logs.map Prod.fst = urls := by
  induction urls generalizing store html with
  | nil => rfl
  | cons u rest ih =>
    simp only [processHtmlStream, List.map_cons]
    rw [ih]

/-- Substitution of a pattern that does not occur is the identity (any fuel). -/
theorem replaceAllF_of_not_contains (pat rep : Str) :
    ∀ (fuel : Nat) (s : Str), listContains pat s = false →
      replaceAllF fuel s pat rep = s := by
  intro fuel
  induction fuel with
  | zero => intro s _; cases s <;> rfl
  | succ f ih =>
    intro s h
    cases s with
    | nil => rfl
    | cons c rest =>
      rw [listContains] at h
      rcases Bool.or_eq_false_iff.mp h with ⟨h1, h2⟩
      rw [replaceAllF, if_neg (by simp [h1])]
      rw [ih rest h2]

/-- Substitution of a pattern that does not occur is the identity. -/
theorem replaceAll_of_not_contains (s pat rep : Str)
    (h : listContains pat s = false) : replaceAll s pat rep = s := by
  unfold replaceAll
  split
  · rfl
  · exact replaceAllF_of_not_contains pat rep s.length s h

/-- A run whose document contains none of the processed URLs leaves the
document text untouched. -/
theorem processHtmlFile_html_frame (env : Env) (html : Str) (urls : List Str) :
    (∀ u ∈ urls, listContains u html = false) →
    ∀ store, (processHtmlFile env store html urls).html = html := by
  induction urls with
  | nil => intro _ _; rfl
  | cons u rest ih =>
    intro h store
    have hr : replaceAll html u (processUrl env store u).link = html :=
      replaceAll_of_not_contains _ _ _ (h u (List.mem_cons_self u rest))
    simp only [processHtmlFile]
    rw [hr]
    exact ih (fun v hv => h v (List.mem_cons_of_mem u hv)) _

/- ### Claims -/

/-- C1, counterexample: committing the payload `[2]` under the key of
`app.js` when the payload `[1]` is already stored there yields the very same
final relative path `../cdn/assets/app.js` — no suffixed alternate name
`app-1.js` is allocated and the second payload is not written — refuting the
claim that two different payloads under one key always get two distinct
final paths via numeric-suffix probing. -/
theorem C1_dedup_counterexample :
    (let u := "https://cdn.oaistatic.com/assets/app.js".data
     let r1 := processUrl ⟨none, fun _ => some [1]⟩ [] u
     let r2 := processUrl ⟨none, fun _ => some [2]⟩ r1.store u
     r1.link = r2.link ∧
     r2.link = "../cdn/assets/app.js".data ∧
     r2.status = "identique – déjà présent".data ∧
     r2.store = r1.store ∧
     lookupStore r1.store ("cdn/assets/app.js".data) = some [1]) := by decide

/-- C1 (corrected): committing two byte payloads — different or not — under
the same `(origin, filename)` key yields the same final relative path for
both commits, and nothing stored by the first commit is ever overwritten by
the second: the loop only writes to a path that does not exist yet, so the
second payload is silently dropped. -/
theorem C1_dedup_same_path_no_overwrite (env1 env2 : Env) (store : Store)
    (url : Str) :
    (processUrl env2 (processUrl env1 store url).store url).link
        = (processUrl env1 store url).link ∧
    ∀ p b, lookupStore (processUrl env1 store url).store p = some b →
      lookupStore (processUrl env2 (processUrl env1 store url).store url).store
        p = some b := by
  refine ⟨?_, ?_⟩
  · rw [processUrl_link, processUrl_link]
  · exact fun p b h => processUrl_grow env2 _ url p b h

/-- C1 witness: the no-overwrite part at a concrete store and URL. -/
theorem C1_dedup_same_path_no_overwrite_witness :
    lookupStore
      (processUrl ⟨none, fun _ => some [2]⟩
        (processUrl ⟨none, fun _ => some [1]⟩ []
          ("https://cdn.oaistatic.com/assets/app.js".data)).store
        ("https://cdn.oaistatic.com/assets/app.js".data)).store
      ("cdn/assets/app.js".data) = some [1] :=
  (C1_dedup_same_path_no_overwrite ⟨none, fun _ => some [1]⟩
      ⟨none, fun _ => some [2]⟩ [] ("https://cdn.oaistatic.com/assets/app.js".data)).2
    ("cdn/assets/app.js".data) [1] (by decide)

/-- C2 (confirmed): re-running the whole rewrite loop, with the same
environment (same source directory, same network behaviour) on the same
document, over the store produced by a first run, changes neither the store
contents nor the output text; and a reference whose key path is already
stored is a pure cache hit: no write, the existing link returned, no I/O
effect. -/
theorem C2_idempotent_rerun :
    (∀ (env : Env) (store : Store) (html : Str) (urls : List Str),
        (processHtmlFile env (processHtmlFile env store html urls).store html
            urls).store = (processHtmlFile env store html urls).store ∧
        (processHtmlFile env (processHtmlFile env store html urls).store html
            urls).html = (processHtmlFile env store html urls).html) ∧
    (∀ (env : Env) (store : Store) (url : Str) (b : Bytes),
        lookupStore store (targetFor url).path = some b →
        processUrl env store url =
          ⟨store, (targetFor url).link,
            "identique – déjà présent".data, []⟩) := by
  constructor
  · intro env store html urls
    refine ⟨?_, ?_⟩
    · exact processHtmlFile_store_fix env _ html urls (fun u hu =>
        processUrl_store_noop env _ u (processHtmlFile_after env store html urls u hu))
    · rw [processHtmlFile_html_eq, processHtmlFile_html_eq]
  · exact fun env store url b h => processUrl_of_stored env store url b h

/-- C2 witness: cache hit at a concrete store and URL. -/
theorem C2_idempotent_rerun_witness :
    processUrl ⟨none, fun _ => none⟩ [("cdn/assets/app.js".data, [7])]
        ("https://cdn.oaistatic.com/assets/app.js".data) =
      ⟨[("cdn/assets/app.js".data, [7])],
        (targetFor ("https://cdn.oaistatic.com/assets/app.js".data)).link,
        "identique – déjà présent".data, []⟩ :=
  C2_idempotent_rerun.2 ⟨none, fun _ => none⟩ _ _ [7] (by decide)

/-- C3, counterexample: the document contains the CDN URL both in running
prose and as an attribute value; after the run the prose occurrence is gone
too — `html.replace` is a blind global substitution — refuting the claim
that unrelated text containing the same literal URL is preserved
byte-for-byte. -/
theorem C3_rewrite_counterexample :
    (let u := "https://cdn.oaistatic.com/assets/app.js".data
     let html := ("<p>see https://cdn.oaistatic.com/assets/app.js</p>"
        ++ "<script src=\"https://cdn.oaistatic.com/assets/app.js\"></script>").data
     let r := processHtmlFile ⟨none, fun _ => some [0]⟩ [] html [u]
     listContains ("see https://cdn.oaistatic.com/assets/app.js".data) html
        = true ∧
     r.html = ("<p>see ../cdn/assets/app.js</p>"
        ++ "<script src=\"../cdn/assets/app.js\"></script>").data ∧
     listContains ("see https://cdn.oaistatic.com/assets/app.js".data) r.html
        = false) := by decide

/-- C3 (corrected): the rewrite is a global string substitution — every
occurrence of each processed rawURL anywhere in the text is replaced, and
the output text is a pure function of the input text and the URL list,
independent of the store and of every resolution outcome; text containing
no occurrence of any processed rawURL is preserved byte-for-byte. -/
theorem C3_rewrite_global_frame :
    (∀ (env : Env) (store : Store) (html : Str) (urls : List Str),
        (∀ u ∈ urls, listContains u html = false) →
        (processHtmlFile env store html urls).html = html) ∧
    (∀ (env : Env) (store : Store) (html : Str) (urls : List Str),
        (processHtmlFile env store html urls).html = rewriteList html urls) := by
  constructor
  · intro env store html urls h
    exact processHtmlFile_html_frame env html urls h store
  · intro env store html urls
    exact processHtmlFile_html_eq env store html urls

/-- C3 witness: a document free of the processed URL survives unchanged. -/
theorem C3_rewrite_global_frame_witness :
    (processHtmlFile ⟨none, fun _ => some [0]⟩ [] ("<p>hello</p>".data)
        ["https://cdn.oaistatic.com/assets/app.js".data]).html
      = "<p>hello</p>".data :=
  C3_rewrite_global_frame.1 ⟨none, fun _ => some [0]⟩ [] _ _ (by decide)

/-- C4, counterexample: the fetch of the reference fails (`non téléchargé`
is logged, nothing is stored), yet the rawURL is not left unchanged: the
output text no longer contains it — it has been rewritten to the external
store link that was never populated. -/
theorem C4_notfound_counterexample :
    (let u := "https://www.example.com/a.png".data
     let html := "<img src=\"https://www.example.com/a.png\">".data
     let r := processHtmlFile ⟨none, fun _ => none⟩ [] html [u]
     r.logs = [(u, "non téléchargé".data)] ∧
     r.store = [] ∧
     listContains u r.html = false ∧
     r.html = "<img src=\"../external_assets/a.png\">".data) := by decide

/-- C4 (corrected): a reference that resolves nowhere is logged as a failure
(`non trouvé` with a local directory in use, `non téléchargé` otherwise) and
the store is untouched, but the original rawURL is not left in the text: the
document is rewritten to the computed store link anyway. -/
theorem C4_notfound_rewritten_anyway :
    (∀ (env : Env) (store : Store) (url : Str),
        lookupStore store (targetFor url).path = none →
        resolves env url = none →
        processUrl env store url =
          ⟨store, (targetFor url).link, failStatus env,
            [Effect.netFetch url]⟩) ∧
    (∀ (env : Env) (store : Store) (html : Str) (url : Str),
        (processHtmlFile env store html [url]).html
          = replaceAll html url (targetFor url).link) := by
  constructor
  · exact fun env store url h hr => processUrl_unresolved env store url h hr
  · intro env store html url
    rw [processHtmlFile_html_eq]
    rfl

/-- C4 witness: the failure branch at a concrete environment and URL. -/
theorem C4_notfound_rewritten_anyway_witness :
    processUrl ⟨none, fun _ => none⟩ [] ("https://www.example.com/a.png".data) =
      ⟨[], (targetFor ("https://www.example.com/a.png".data)).link,
        failStatus ⟨none, fun _ => none⟩,
        [Effect.netFetch ("https://www.example.com/a.png".data)]⟩ :=
  C4_notfound_rewritten_anyway.1 ⟨none, fun _ => none⟩ [] _ (by decide) (by decide)

/-- C5, counterexample: a sibling-export relative path and an unrelated
absolute URL receive the identical classification — same log tag `local`,
same external store target — so there is no LocalExport class and the
Unknown class has no log tag of its own, refuting the four-way claim. -/
theorem C5_classification_counterexample :
    targetFor ("report_fichiers/img.png".data)
        = targetFor ("https://www.example.com/img.png".data) ∧
    (targetFor ("https://www.example.com/img.png".data)).origine
        = "local".data ∧
    (targetFor ("report_fichiers/img.png".data)).origine = "local".data := by
  decide

/-- C5 (corrected): classification is a pure function of the URL applying
rules in priority order — netloc containing `cdn.oaistatic.com` gives CDN
(tag `cdn`, root `cdn/assets`), else netloc containing
`persistent.oaistatic.com` gives Persistent (tag `persistent`, root
`persistent`), else everything — sibling-export relative paths and unknown
URLs alike — goes to the generic external store under the single shared
tag `local`. -/
theorem C5_classification_three_way :
    (∀ url : Str,
        listContains ("cdn.oaistatic.com".data) (netlocOf url) = true →
        targetFor url = ⟨"cdn".data,
          "../cdn/assets/".data ++ basenameOf (pathOf url),
          "cdn/assets/".data ++ basenameOf (pathOf url)⟩) ∧
    (∀ url : Str,
        listContains ("cdn.oaistatic.com".data) (netlocOf url) = false →
        listContains ("persistent.oaistatic.com".data) (netlocOf url) = true →
        targetFor url = ⟨"persistent".data,
          "../persistent/".data ++ basenameOf (pathOf url),
          "persistent/".data ++ basenameOf (pathOf url)⟩) ∧
    (∀ url : Str,
        listContains ("cdn.oaistatic.com".data) (netlocOf url) = false →
        listContains ("persistent.oaistatic.com".data) (netlocOf url) = false →
        targetFor url = ⟨"local".data,
          "../external_assets/".data ++ basenameOf (pathOf url),
          "external_assets/".data ++ basenameOf (pathOf url)⟩) ∧
    (targetFor ("https://cdn.oaistatic.com/assets/foo.js".data)).origine
        = "cdn".data ∧
    (targetFor ("https://persistent.oaistatic.com/x/y.png".data)).origine
        = "persistent".data ∧
    (targetFor ("report_fichiers/img.png".data)).origine = "local".data ∧
    (targetFor ("https://other.example.org/z.css".data)).origine
        = "local".data := by
  refine ⟨?_, ?_, ?_, by decide, by decide, by decide, by decide⟩
  · intro url h
    simp [targetFor, h]
  · intro url h1 h2
    simp [targetFor, h1, h2]
  · intro url h1 h2
    simp [targetFor, h1, h2]

/-- C5 witness: the CDN rule at a concrete URL. -/
theorem C5_classification_three_way_witness :
    targetFor ("https://cdn.oaistatic.com/assets/foo.js".data) =
      ⟨"cdn".data,
        "../cdn/assets/".data
          ++ basenameOf (pathOf ("https://cdn.oaistatic.com/assets/foo.js".data)),
        "cdn/assets/".data
          ++ basenameOf (pathOf ("https://cdn.oaistatic.com/assets/foo.js".data))⟩ :=
  C5_classification_three_way.1 _ (by decide)

/-- C6, counterexample: the same failing URL referenced twice triggers two
network fetches in one run — there is no memoization by key, only the
existence check on the store path, so a failed resolution is re-attempted —
refuting "at most one network fetch per distinct key even when an earlier
attempt failed". -/
theorem C6_memoization_counterexample :
    (let u := "https://www.example.com/a.png".data
     let r := processHtmlFile ⟨none, fun _ => none⟩ [] ("x".data) [u, u]
     r.effects = [Effect.netFetch u, Effect.netFetch u] ∧
     r.logs = [(u, "non téléchargé".data), (u, "non téléchargé".data)]) := by
  decide

/-- C6 (corrected): deduplication happens through store existence, not a
memoization cache: each store path is written at most once per run, and a
reference whose key path is already stored performs no read, fetch or write
at all; but a reference whose resolution failed is retried at every later
occurrence. -/
theorem C6_write_once :
    (∀ (env : Env) (store : Store) (html : Str) (urls : List Str) (p : Str),
        (processHtmlFile env store html urls).effects.count (Effect.write p)
          ≤ 1) ∧
    (∀ (env : Env) (store : Store) (url : Str) (b : Bytes),
        lookupStore store (targetFor url).path = some b →
        (processUrl env store url).effects = []) := by
  constructor
  · exact fun env store html urls p =>
      processHtmlFile_count_write_le_one env store html urls p
  · intro env store url b h
    rw [processUrl_of_stored env store url b h]

/-- C6 witness: a stored key performs no effect, at a concrete store. -/
theorem C6_write_once_witness :
    (processUrl ⟨none, fun _ => none⟩ [("cdn/assets/app.js".data, [7])]
        ("https://cdn.oaistatic.com/assets/app.js".data)).effects = [] :=
  C6_write_once.2 _ _ _ [7] (by decide)

/-- C7 (confirmed): when a local export directory is in use and holds a file
with the base filename of a not-yet-stored reference, the bytes are copied
from it (`copié – local`), with no network fetch; with a local directory in
use, a network fetch happens exactly when no such local file exists. -/
theorem C7_local_preference :
    (∀ (dir fetch : Str → Option Bytes) (store : Store) (url : Str) (b : Bytes),
        lookupStore store (targetFor url).path = none →
        dir (basenameOf (pathOf url)) = some b →
        processUrl ⟨some dir, fetch⟩ store url =
          ⟨((targetFor url).path, b) :: store, (targetFor url).link,
            "copié – local".data,
            [Effect.localRead (basenameOf (pathOf url)),
              Effect.write (targetFor url).path]⟩) ∧
    (∀ (dir fetch : Str → Option Bytes) (store : Store) (url : Str),
        lookupStore store (targetFor url).path = none →
        (Effect.netFetch url ∈ (processUrl ⟨some dir, fetch⟩ store url).effects
          ↔ dir (basenameOf (pathOf url)) = none)) := by
  constructor
  · intro dir fetch store url b h hd
    simp [processUrl, h, hd]
  · intro dir fetch store url h
    rcases hd : dir (basenameOf (pathOf url)) with _ | b
    · constructor
      · intro _; rfl
      · intro _
        rcases hf : fetch url with _ | b <;> simp [processUrl, h, hd, hf]
    · constructor
      · intro hmem
        simp [processUrl, h, hd] at hmem
      · intro hnone
        exact Option.noConfusion hnone

/-- C7 witness: local copy preferred at a concrete directory and URL. -/
theorem C7_local_preference_witness :
    processUrl ⟨some (fun _ => some [9]), fun _ => some [1]⟩ []
        ("https://cdn.oaistatic.com/assets/app.js".data) =
      ⟨[(("cdn/assets/app.js".data), [9])],
        (targetFor ("https://cdn.oaistatic.com/assets/app.js".data)).link,
        "copié – local".data,
        [Effect.localRead
            (basenameOf (pathOf ("https://cdn.oaistatic.com/assets/app.js".data))),
          Effect.write (targetFor ("https://cdn.oaistatic.com/assets/app.js".data)).path]⟩ := by
  have h := C7_local_preference.1 (fun _ => some [9]) (fun _ => some [1]) []
    ("https://cdn.oaistatic.com/assets/app.js".data) [9] (by decide) (by decide)
  exact h

/-- C8 (confirmed): `download_file` turns a non-200 status or a network
error into a plain `False`/`none` (nothing raised further), the failing
reference is logged `non téléchargé` with the store untouched, and a run
still produces one log line per reference, in order — a single failed fetch
never aborts the loop. -/
theorem C8_fetch_error_nonfatal :
    (∀ c : Bytes, downloadFile (HttpResult.success 200 c) = some c) ∧
    (∀ (s : Nat) (c : Bytes), s ≠ 200 →
        downloadFile (HttpResult.success s c) = none) ∧
    downloadFile HttpResult.netError = none ∧
    (∀ (oracle : Str → HttpResult) (store : Store) (html : Str)
        (urls : List Str),
        (processHtmlFile ⟨none, fun v => downloadFile (oracle v)⟩ store html
            urls).logs.map Prod.fst = urls) ∧
    (∀ (oracle : Str → HttpResult) (store : Store) (url : Str),
        lookupStore store (targetFor url).path = none →
        downloadFile (oracle url) = none →
        processUrl ⟨none, fun v => downloadFile (oracle v)⟩ store url =
          ⟨store, (targetFor url).link, "non téléchargé".data,
            [Effect.netFetch url]⟩) := by
  refine ⟨fun c => rfl, ?_, rfl, ?_, ?_⟩
  · intro s c hs
    simp [downloadFile, hs]
  · intro oracle store html urls
    exact processHtmlFile_logs _ store html urls
  · intro oracle store url h hf
    simp [processUrl, h, hf]

/-- C8 witness: a 404 response yields a plain failure value. -/
theorem C8_fetch_error_nonfatal_witness :
    downloadFile (HttpResult.success 404 [1, 2]) = none :=
  C8_fetch_error_nonfatal.2.1 404 [1, 2] (by decide)

/-- C9 (code bug): with `--no-prompt` set and `--force` unset, a missing
sibling export directory still reaches `input()` — the missing-directory
confirmation is guarded by `args.force` alone — whether or not the output
file exists; only `--force` suppresses it. -/
theorem C9_noprompt_still_blocks :
    blocksOnInput ⟨false, true, none⟩ ⟨true, false, false⟩ = true ∧
    blocksOnInput ⟨false, true, none⟩ ⟨false, false, false⟩ = true ∧
    blocksOnInput ⟨true, true, none⟩ ⟨true, false, false⟩ = false := by decide

/-- C10 (confirmed): the stdin pipeline never reads a local directory and
never prompts; it logs one line per reference in order; a reference whose
store path is absent triggers a network fetch, and when the fetch fails it
is logged `non téléchargé` with the store untouched and processing goes
on. -/
theorem C10_stream_remote_only :
    (∀ (fetch : Str → Option Bytes) (store : Store) (html : Str)
        (urls : List Str),
        (∀ e ∈ (processHtmlStream fetch store html urls).effects,
            (∀ f, e ≠ Effect.localRead f) ∧ e ≠ Effect.prompt) ∧
        (processHtmlStream fetch store html urls).logs.map Prod.fst = urls) ∧
    (∀ (fetch : Str → Option Bytes) (store : Store) (url : Str),
        lookupStore store (targetForStream url).path = none →
        Effect.netFetch url ∈ (processUrlStream fetch store url).effects ∧
        (fetch url = none →
          processUrlStream fetch store url =
            ⟨store, (targetForStream url).link, "non téléchargé".data,
              [Effect.netFetch url]⟩)) := by
  constructor
  · intro fetch store html urls
    exact ⟨processHtmlStream_no_local fetch store html urls,
      processHtmlStream_logs fetch store html urls⟩
  · intro fetch store url h
    constructor
    · rcases hf : fetch url with _ | b <;> simp [processUrlStream, h, hf]
    · intro hf
      simp [processUrlStream, h, hf]

/-- C10 witness: the failing-fetch branch of the stdin loop at a concrete
URL. -/
theorem C10_stream_remote_only_witness :
    processUrlStream (fun _ => none) [] ("https://www.example.com/a.png".data) =
      ⟨[], (targetForStream ("https://www.example.com/a.png".data)).link,
        "non téléchargé".data,
        [Effect.netFetch ("https://www.example.com/a.png".data)]⟩ :=
  (C10_stream_remote_only.2 (fun _ => none) [] _ (by decide)).2 (by decide)

end Oaistatic
